import Mathlib

/-!
# Verification of the katcp type registry (`src/katcp/ktype.c`)

Shallow embedding of the typed key/value registry: a lexicographically sorted,
dynamically resized sequence of type descriptors, each owning an ordered map of
string keys to opaque values together with five behaviour callbacks.

Modelling conventions:
* opaque value pointers and callback function pointers are modelled as `Nat`
  identities; a NULL pointer is `none`;
* the descriptor array `s->s_type` is a `List (Option KatcpType)` (a slot can
  hold a NULL pointer); `s->s_type_count` is its length;
* allocation failures (`realloc`, `malloc`, `strdup`, `create_avltree`) are
  driven by an explicit oracle of booleans;
* calls of a value-free callback are made observable as a log of
  (callback identity, value) pairs returned by the mutating operations;
* the binary-search `while` loop is expressed as structural recursion on a
  fuel argument; with fuel at least the size of the search window the fuel-out
  branch returns the same value as the loop-exit branch, so the function agrees
  with the C loop for the fuel supplied by its (sole) caller.
-/

namespace Katcp

/-- The five behaviour callbacks handed to registration and store calls.
Each is a function-pointer identity (`none` models a NULL pointer); the code
compares them with pointer equality only. -/
structure Callbacks where
  fn_print : Option Nat
  fn_free : Option Nat
  fn_copy : Option Nat
  fn_compare : Option Nat
  fn_parse : Option Nat
deriving DecidableEq, Repr

/-- Modelled from the spec: `avltree.c` (the ordered map ADT) is not under
`src/`.  The spec describes it as a string-keyed, string-ordered map with
insert (failing on a key collision), find-by-key, in-order traversal, and
destruction releasing every entry through a caller-supplied free callback.
We model it as a key-sorted association list from keys to opaque values. -/
abbrev AvlTree := List (String × Nat)

/-- Modelled from the spec: `create_map() -> Map`, a fresh empty ordered map. -/
def create_avltree : AvlTree := []

/-- Modelled from the spec: `insert(map, key, value) -> Ok | Error`; insertion
keeps the keys sorted and fails (`none`, the C negative return) when the key
collides with an existing entry. -/
def add_node_avltree (key : String) (data : Nat) : AvlTree → Option AvlTree
  | [] => some [(key, data)]
  | e :: rest =>
    if key = e.1 then none
    else if key < e.1 then some ((key, data) :: e :: rest)
    else (add_node_avltree key data rest).map (e :: ·)

/-- Modelled from the spec: `find(map, key) -> value | NotFound`; a NULL tree
has no entries. -/
def find_name_node_avltree (t : Option AvlTree) (key : String) : Option (String × Nat) :=
  match t with
  | none => none
  | some l => l.find? (fun e => e.1 == key)

/-- Data held by an ordered-map node. -/
def get_node_data_avltree (n : String × Nat) : Nat := n.2

/-- Modelled from the spec: `destroy_map(map, free_fn)` releases every entry
via `free_fn` and then the map itself.  The result is the log of free-callback
invocations as (callback, value) pairs; a NULL callback releases nothing. -/
def destroy_avltree (t : AvlTree) (fn : Option Nat) : List (Nat × Nat) :=
  match fn with
  | some f => t.map (fun e => (f, e.2))
  | none => []

/-- Modelled from the spec: releasing a single, not yet linked node applies the
supplied free callback to the node's value, consuming ownership of it. -/
def free_node_avltree (data : Nat) (fn : Option Nat) : List (Nat × Nat) :=
  match fn with
  | some f => [(f, data)]
  | none => []

/-- A type descriptor (`struct katcp_type`): a name, an optional handle on the
ordered map used as the type's store, and the five callbacks. -/
structure KatcpType where
  t_name : String
  t_tree : Option AvlTree
  t_print : Option Nat
  t_free : Option Nat
  t_copy : Option Nat
  t_compare : Option Nat
  t_parse : Option Nat
deriving DecidableEq, Repr

/-- The callback set recorded in a descriptor. -/
def callbacksOf (t : KatcpType) : Callbacks :=
  ⟨t.t_print, t.t_free, t.t_copy, t.t_compare, t.t_parse⟩

/-- `destroy_type_katcp`: destroying a descriptor destroys its tree with the
type's free callback; the result is the log of free-callback invocations. -/
def destroy_type_katcp (t : KatcpType) : List (Nat × Nat) :=
  match t.t_tree with
  | some tr => destroy_avltree tr t.t_free
  | none => []

/-- The registry state reachable from the dispatch: the descriptor array
`s->s_type` (slots are pointers, hence `Option`); `s->s_type_count` is the
list's length. -/
structure Shared where
  s_type : List (Option KatcpType)
deriving DecidableEq, Repr

/-- The name of the descriptor in a slot (reading the name of a NULL slot
would fault in C; it never happens on consistent registries). -/
def typeNames (ts : List (Option KatcpType)) : List String :=
  ts.map (fun o => o.elim "" KatcpType.t_name)

/-- The body of the binary-search `while` loop of
`binary_search_type_list_katcp`, as structural recursion on fuel.  When the
fuel runs out the loop-exit value `(-1) * (low + 1)` is returned, which is
also what the loop itself returns once `low > high`; the sole caller passes
fuel covering the whole search window, so the two functions agree. -/
def bsearch_loop (ns : List String) (str : String) : Nat → Int → Int → Int
  | 0, low, _ => (-1) * (low + 1)
  | fuel + 1, low, high =>
    if low ≤ high then
      let mid := low + (high - low) / 2
      let t := ns.getD mid.toNat ""
      if str = t then mid
      else if str < t then bsearch_loop ns str fuel low (mid - 1)
      else bsearch_loop ns str fuel (mid + 1) high
    else (-1) * (low + 1)

/-- `binary_search_type_list_katcp`: sorted-array binary search over the
descriptor names; `-1` on a NULL/empty array, the matching index on success,
`(-1) * (low + 1)` on failure. -/
def binary_search_type_list_katcp (ts : List (Option KatcpType)) (str : String) : Int :=
  if ts.length = 0 then -1
  else bsearch_loop (typeNames ts) str ts.length 0 ((ts.length : Int) - 1)

/-- Success/failure of the individual allocations performed by the registry
operations. -/
structure AllocOracle where
  reallocOk : Bool
  mallocOk : Bool
  strdupOk : Bool
  treeOk : Bool
deriving DecidableEq, Repr

/-- The oracle under which every allocation succeeds. -/
def allOk : AllocOracle := ⟨true, true, true, true⟩

/-- `register_at_id_type_katcp`: grow the array by one slot, build a fresh
descriptor (name copy, fresh ordered map, the five callbacks), shift the tail
one slot to the right and place the descriptor at index `tid` (clamped to the
old size by the shift loop), returning the insertion index.  Any allocation
failure aborts with `-1` before `s->s_type`/`s->s_type_count` are updated. -/
def register_at_id_type_katcp (o : AllocOracle) (s : Shared) (tid : Nat) (tname : String)
    (cb : Callbacks) : Shared × Int :=
  if !o.reallocOk then (s, -1)
  else if !o.mallocOk then (s, -1)
  else if !o.strdupOk then (s, -1)
  else if !o.treeOk then (s, -1)
  else
    let t : KatcpType :=
      { t_name := tname, t_tree := some create_avltree,
        t_print := cb.fn_print, t_free := cb.fn_free, t_copy := cb.fn_copy,
        t_compare := cb.fn_compare, t_parse := cb.fn_parse }
    let i := min tid s.s_type.length
    (⟨s.s_type.take i ++ some t :: s.s_type.drop i⟩, (i : Int))

/-- `register_name_type_katcp`: binary-search the name; a non-negative result
(an existing type of that name) is rejected with `-1`; otherwise the encoded
insertion point `(pos + 1) * (-1)` is handed to `register_at_id_type_katcp`. -/
def register_name_type_katcp (o : AllocOracle) (s : Shared) (name : String)
    (cb : Callbacks) : Shared × Int :=
  let pos := binary_search_type_list_katcp s.s_type name
  if 0 ≤ pos then (s, -1)
  else register_at_id_type_katcp o s ((pos + 1) * (-1)).toNat name cb

/-- `deregister_type_katcp`: binary-search the name (failing with `-1` when
absent), destroy the descriptor and NULL its slot, shift the tail one slot to
the left (the last slot keeps its old value), then shrink the array by one
slot; if the shrinking `realloc` fails, return `-1` without updating
`s->s_type`/`s->s_type_count`.  Also returns the free-callback log of the
destroyed descriptor. -/
def deregister_type_katcp (shrinkOk : Bool) (s : Shared) (name : String) :
    Shared × List (Nat × Nat) × Int :=
  let ts := s.s_type
  let size := ts.length
  let pos := binary_search_type_list_katcp ts name
  if pos < 0 then (s, [], -1)
  else
    let p := pos.toNat
    let log := match ts.getD p none with
      | some t => destroy_type_katcp t
      | none => []
    let ts1 := ts.set p none
    let ts2 := ts1.take p ++ ts1.drop (p + 1) ++ [ts1.getD (size - 1) none]
    if !shrinkOk then (⟨ts2⟩, log, -1)
    else (⟨ts2.take (size - 1)⟩, log, 0)

/-- `store_data_type_katcp`: resolve the type by binary search, auto-register
it at the encoded insertion point when absent; reject the call when the five
supplied callbacks are not identical to the descriptor's; create the ordered
map lazily when the handle is NULL; then create a node for (key, value) and
add it to the map, releasing the node (and through the supplied free callback
its value) when the map reports a collision.  Returns the updated state, the
free-callback log and the C return code. -/
def store_data_type_katcp (o : AllocOracle) (nodeOk : Bool) (s : Shared)
    (t_name d_name : String) (d_data : Nat) (cb : Callbacks) :
    Shared × List (Nat × Nat) × Int :=
  let pos0 := binary_search_type_list_katcp s.s_type t_name
  let reg : Shared × Int :=
    if pos0 < 0 then register_at_id_type_katcp o s ((pos0 + 1) * (-1)).toNat t_name cb
    else (s, pos0)
  let s1 := reg.1
  if reg.2 < 0 then (s1, [], -1)
  else
    match s1.s_type.getD reg.2.toNat none with
    | none => (s1, [], -1)
    | some t =>
      if t.t_print ≠ cb.fn_print ∨ t.t_free ≠ cb.fn_free ∨ t.t_copy ≠ cb.fn_copy ∨
          t.t_compare ≠ cb.fn_compare ∨ t.t_parse ≠ cb.fn_parse then
        (s1, [], -1)
      else
        let t1 := if t.t_tree = none then
            (if o.treeOk then { t with t_tree := some create_avltree } else t)
          else t
        let s2 : Shared := ⟨s1.s_type.set reg.2.toNat (some t1)⟩
        match t1.t_tree with
        | none => (s2, [], -1)
        | some at0 =>
          if !nodeOk then (s2, [], -1)
          else
            match add_node_avltree d_name d_data at0 with
            | none => (s2, free_node_avltree d_data cb.fn_free, -1)
            | some at1 =>
              (⟨s2.s_type.set reg.2.toNat (some { t1 with t_tree := some at1 })⟩, [], 0)

/-- `find_name_id_type_katcp`: binary search over the registry. -/
def find_name_id_type_katcp (s : Shared) (str : String) : Int :=
  binary_search_type_list_katcp s.s_type str

/-- `find_name_type_katcp`: the descriptor found by name, NULL when absent. -/
def find_name_type_katcp (s : Shared) (str : String) : Option KatcpType :=
  let pos := find_name_id_type_katcp s str
  if pos < 0 then none
  else s.s_type.getD pos.toNat none

/-- `get_key_data_type_katcp`: resolve the type by name, look the key up in
its tree and return the node's data. -/
def get_key_data_type_katcp (s : Shared) (type key : String) : Option Nat :=
  match find_name_type_katcp s type with
  | none => none
  | some t =>
    match find_name_node_avltree t.t_tree key with
    | none => none
    | some n => some (get_node_data_avltree n)

/-- The number of names byte-wise below `str`: for a sorted registry this is
the position at which `str` would have to be inserted to preserve the sort
order. -/
def insertionPoint (ns : List String) (str : String) : Nat :=
  ns.countP (fun n => decide (n < str))

/-! ## Generic list helpers -/

/-- Reading the element just after a prefix of known length. -/
theorem getD_append_cons {α : Type} (l1 l2 : List α) (a d : α) :
    (l1 ++ a :: l2).getD l1.length d = a := by
  induction l1 with
  | nil => rfl
  | cons b tl ih => simpa using ih

/-- Overwriting the element just after a prefix of known length. -/
theorem set_append_cons {α : Type} (l1 l2 : List α) (a b : α) :
    (l1 ++ a :: l2).set l1.length b = l1 ++ b :: l2 := by
  induction l1 with
  | nil => rfl
  | cons c tl ih => simp [ih]

/-- Taking below an overwritten index ignores the overwrite. -/
theorem take_set_of_le {α : Type} (a : α) :
    ∀ (l : List α) (i j : Nat), i ≤ j → (l.set j a).take i = l.take i := by
  intro l
  induction l with
  | nil => intro i j _; simp
  | cons b tl ih =>
    intro i j hij
    cases j with
    | zero =>
      have : i = 0 := Nat.le_zero.mp hij
      simp [this]
    | succ j =>
      cases i with
      | zero => simp
      | succ i => simpa using ih i j (Nat.succ_le_succ_iff.mp hij)

/-- Dropping beyond an overwritten index ignores the overwrite. -/
theorem drop_set_of_lt {α : Type} (a : α) :
    ∀ (l : List α) (i j : Nat), j < i → (l.set j a).drop i = l.drop i := by
  intro l
  induction l with
  | nil => intro i j _; simp
  | cons b tl ih =>
    intro i j hij
    cases j with
    | zero =>
      cases i with
      | zero => exact absurd hij (lt_irrefl 0)
      | succ i => simp
    | succ j =>
      cases i with
      | zero => exact absurd hij (Nat.not_lt_zero _)
      | succ i => simpa using ih i j (Nat.succ_lt_succ_iff.mp hij)

/-- Writing back the value already held in a slot is the identity. -/
theorem set_self_of_getD {α : Type} (d : α) :
    ∀ (l : List α) (i : Nat), i < l.length → l.set i (l.getD i d) = l := by
  intro l
  induction l with
  | nil => intro i hi; simp at hi
  | cons b tl ih =>
    intro i hi
    cases i with
    | zero => rfl
    | succ i => simpa using ih i (by simpa using hi)

/-- A count over a list whose predicate holds exactly below index `k`. -/
theorem countP_eq_of_split {α : Type} (d : α) (p : α → Bool) :
    ∀ (l : List α) (k : Nat), k ≤ l.length →
      (∀ i, i < k → p (l.getD i d) = true) →
      (∀ i, k ≤ i → i < l.length → p (l.getD i d) = false) →
      l.countP p = k := by
  intro l
  induction l with
  | nil =>
    intro k hk _ _
    simp only [List.length_nil, Nat.le_zero] at hk
    simp [hk]
  | cons a tl ih =>
    intro k hk htrue hfalse
    cases k with
    | zero =>
      rw [List.countP_eq_zero]
      intro b hb
      obtain ⟨n, hn⟩ := List.mem_iff_get.mp hb
      have := hfalse n (Nat.zero_le n) n.isLt
      rw [List.getD_eq_getElem _ d n.isLt, ← List.get_eq_getElem, hn] at this
      simp [this]
    | succ k =>
      have hpa : p a = true := by
        have := htrue 0 (Nat.succ_pos k)
        simpa using this
      rw [List.countP_cons, hpa, if_pos rfl]
      have hrec : tl.countP p = k := by
        refine ih k (by simpa using hk) ?_ ?_
        · intro i hi
          have := htrue (i + 1) (Nat.succ_lt_succ hi)
          simpa using this
        · intro i hki hi
          have := hfalse (i + 1) (Nat.succ_le_succ hki) (by simpa using hi)
          simpa using this
      omega

/-! ## Sorted name lists -/

/-- Strict sortedness read through `getD`. -/
theorem getD_lt_of_sorted {ns : List String} (hs : List.Pairwise (· < ·) ns)
    {i j : Nat} (hij : i < j) (hj : j < ns.length) :
    ns.getD i "" < ns.getD j "" := by
  have hi : i < ns.length := lt_trans hij hj
  rw [List.getD_eq_getElem _ _ hi, List.getD_eq_getElem _ _ hj]
  have := List.pairwise_iff_get.mp hs ⟨i, hi⟩ ⟨j, hj⟩ hij
  simpa using this

/-- Weak monotonicity read through `getD`. -/
theorem getD_le_of_sorted {ns : List String} (hs : List.Pairwise (· < ·) ns)
    {i j : Nat} (hij : i ≤ j) (hj : j < ns.length) :
    ns.getD i "" ≤ ns.getD j "" := by
  rcases Nat.lt_or_ge i j with h | h
  · exact le_of_lt (getD_lt_of_sorted hs h hj)
  · have : i = j := Nat.le_antisymm hij h
    subst this
    exact le_refl _

/-- In a sorted list the insertion point of a present name is its index. -/
theorem insertionPoint_eq_of_getD {ns : List String} (hs : List.Pairwise (· < ·) ns)
    {k : Nat} (hk : k < ns.length) {str : String} (hstr : ns.getD k "" = str) :
    insertionPoint ns str = k := by
  refine countP_eq_of_split "" _ ns k (le_of_lt hk) ?_ ?_
  · intro i hi
    have := getD_lt_of_sorted hs hi hk
    rw [hstr] at this
    simpa using this
  · intro i hki hi
    have : str ≤ ns.getD i "" := hstr ▸ getD_le_of_sorted hs hki hi
    simpa using not_lt_of_le this

/-- A name below everything at and beyond `low` and above everything before
`low` is absent and would be inserted at `low`. -/
theorem absent_split {ns : List String} {str : String} {low : Nat}
    (hlen : low ≤ ns.length)
    (hlo : ∀ i : Nat, i < low → ns.getD i "" < str)
    (hhi : ∀ i : Nat, low ≤ i → i < ns.length → str < ns.getD i "") :
    str ∉ ns ∧ insertionPoint ns str = low := by
  constructor
  · intro hmem
    obtain ⟨n, hn⟩ := List.mem_iff_get.mp hmem
    have hgd : ns.getD (n : Nat) "" = str := by
      rw [List.getD_eq_getElem _ _ n.isLt, ← List.get_eq_getElem, hn]
    rcases Nat.lt_or_ge (n : Nat) low with h | h
    · exact absurd (hgd ▸ hlo n h) (lt_irrefl str)
    · exact absurd (hgd ▸ hhi n h n.isLt) (lt_irrefl str)
  · refine countP_eq_of_split "" _ ns low hlen ?_ ?_
    · intro i hi
      simpa using hlo i hi
    · intro i hli hi
      simpa using not_lt_of_le (le_of_lt (hhi i hli hi))

/-- Loop invariant of the binary search: on a sorted name list, a window
`[low, high]` whose outside is already decided yields the matching index when
the name is present and the encoded insertion point when it is absent. -/
theorem bsearch_loop_spec {ns : List String} (hs : List.Pairwise (· < ·) ns)
    (str : String) :
    ∀ (fuel : Nat) (low high : Int),
      (high + 1 - low).toNat ≤ fuel →
      0 ≤ low → low ≤ high + 1 → high < (ns.length : Int) →
      (∀ i : Nat, (i : Int) < low → ns.getD i "" < str) →
      (∀ i : Nat, high < (i : Int) → i < ns.length → str < ns.getD i "") →
      bsearch_loop ns str fuel low high =
        if str ∈ ns then (insertionPoint ns str : Int)
        else (-1) * ((insertionPoint ns str : Int) + 1) := by
  intro fuel
  induction fuel with
  | zero =>
    intro low high hf h0 hlh hhl hlo hhi
    have hlow : low = high + 1 := by omega
    have habs : str ∉ ns ∧ insertionPoint ns str = low.toNat := by
      refine absent_split (by omega) (fun i hi => hlo i (by omega)) ?_
      intro i hli hilen
      exact hhi i (by omega) hilen
    rw [bsearch_loop, if_neg (by simpa using habs.1), habs.2]
    omega
  | succ fuel ih =>
    intro low high hf h0 hlh hhl hlo hhi
    rw [bsearch_loop]
    by_cases hcase : low ≤ high
    · rw [if_pos hcase]
      simp only []
      set m : Int := low + (high - low) / 2 with hm
      have hmlo : low ≤ m := by omega
      have hmhi : m ≤ high := by omega
      have hmlen : m.toNat < ns.length := by omega
      by_cases heq : str = ns.getD m.toNat ""
      · rw [if_pos heq]
        have hmem : str ∈ ns := by
          rw [heq, List.getD_eq_getElem _ _ hmlen]
          exact List.getElem_mem hmlen
        rw [if_pos hmem, insertionPoint_eq_of_getD hs hmlen heq.symm]
        omega
      · rw [if_neg heq]
        by_cases hlt : str < ns.getD m.toNat ""
        · rw [if_pos hlt]
          refine ih low (m - 1) (by omega) h0 (by omega) (by omega) hlo ?_
          intro i hmi hilen
          have hmi' : m.toNat ≤ i := by omega
          exact lt_of_lt_of_le hlt (getD_le_of_sorted hs hmi' hilen)
        · rw [if_neg hlt]
          have hgt : ns.getD m.toNat "" < str :=
            lt_of_le_of_ne (le_of_not_lt hlt) (fun h => heq h.symm)
          refine ih (m + 1) high (by omega) (by omega) (by omega) hhl ?_ hhi
          intro i hi
          rcases Nat.lt_or_ge i low.toNat with h | h
          · exact hlo i (by omega)
          · have hile : i ≤ m.toNat := by omega
            exact lt_of_le_of_lt (getD_le_of_sorted hs hile hmlen) hgt
    · rw [if_neg hcase]
      have habs : str ∉ ns ∧ insertionPoint ns str = low.toNat := by
        refine absent_split (by omega) (fun i hi => hlo i (by omega)) ?_
        intro i hli hilen
        exact hhi i (by omega) hilen
      rw [if_neg (by simpa using habs.1), habs.2]
      omega

/-- Contract of `binary_search_type_list_katcp` on a sorted registry: the
insertion point when the name is present (which is then its index), the
encoded insertion point `(-1) * (low + 1)` otherwise. -/
theorem binary_search_eq (ts : List (Option KatcpType)) (str : String)
    (hs : List.Pairwise (· < ·) (typeNames ts)) :
    binary_search_type_list_katcp ts str =
      if str ∈ typeNames ts then (insertionPoint (typeNames ts) str : Int)
      else (-1) * ((insertionPoint (typeNames ts) str : Int) + 1) := by
  unfold binary_search_type_list_katcp
  have hlen : (typeNames ts).length = ts.length := List.length_map _ _
  by_cases h0 : ts.length = 0
  · rw [if_pos h0]
    have : typeNames ts = [] := List.length_eq_zero.mp (by omega)
    rw [this]
    simp [insertionPoint]
  · rw [if_neg h0]
    have := bsearch_loop_spec hs str ts.length 0 ((ts.length : Int) - 1)
      (by omega) (by omega) (by omega) (by omega)
      (by intro i hi; omega)
      (by intro i hi hilen; omega)
    exact this

/-- Inserting an absent name at its insertion point keeps a sorted name list
sorted. -/
theorem pairwise_insert_at_point (str : String) :
    ∀ ns : List String, List.Pairwise (· < ·) ns → str ∉ ns →
      List.Pairwise (· < ·)
        (ns.take (insertionPoint ns str) ++ str :: ns.drop (insertionPoint ns str)) := by
  intro ns
  induction ns with
  | nil => intro _ _; simp [insertionPoint]
  | cons a tl ih =>
    intro hs hmem
    rw [List.pairwise_cons] at hs
    by_cases hlt : a < str
    · have hip : insertionPoint (a :: tl) str = insertionPoint tl str + 1 :=
        List.countP_cons_of_pos _ _ (decide_eq_true hlt)
      rw [hip]
      simp only [List.take_succ_cons, List.drop_succ_cons, List.cons_append]
      rw [List.pairwise_cons]
      refine ⟨?_, ih hs.2 (fun h => hmem (List.mem_cons_of_mem _ h))⟩
      intro b hb
      rcases List.mem_append.mp hb with h | h
      · exact hs.1 b (List.mem_of_mem_take h)
      · rcases List.mem_cons.mp h with h | h
        · exact h ▸ hlt
        · exact hs.1 b (List.mem_of_mem_drop h)
    · have hsa : str < a := by
        have hne : str ≠ a := fun h => hmem (h ▸ List.mem_cons_self a tl)
        exact lt_of_le_of_ne (le_of_not_lt hlt) hne
      have hip : insertionPoint (a :: tl) str = 0 := by
        have h1 : insertionPoint (a :: tl) str = insertionPoint tl str :=
          List.countP_cons_of_neg _ _ (by simpa using hlt)
        rw [h1]
        unfold insertionPoint
        rw [List.countP_eq_zero]
        intro b hb
        simpa using not_lt_of_le (le_of_lt (lt_trans hsa (hs.1 b hb)))
      rw [hip]
      simp only [List.take_zero, List.drop_zero, List.nil_append]
      rw [List.pairwise_cons]
      refine ⟨?_, List.pairwise_cons.mpr hs⟩
      intro b hb
      rcases List.mem_cons.mp hb with h | h
      · exact h ▸ hsa
      · exact lt_trans hsa (hs.1 b h)

/-! ## C1: binary search contract -/

/-- C1: on a non-empty sorted registry, `binary_search_type_list_katcp`
returns the matching index when the searched name is present (the returned
insertion point is then the index holding the name), and `(-1) * (low + 1)`
when it is absent, where `low` is the position at which the name would have to
be inserted to preserve the sort order (inserting there keeps the name list
sorted); on an empty registry it returns `-1`. -/
theorem binary_search_contract (ts : List (Option KatcpType)) (str : String)
    (hs : List.Pairwise (· < ·) (typeNames ts)) :
    (str ∈ typeNames ts →
      binary_search_type_list_katcp ts str = (insertionPoint (typeNames ts) str : Int) ∧
      (typeNames ts).getD (insertionPoint (typeNames ts) str) "" = str) ∧
    (str ∉ typeNames ts →
      binary_search_type_list_katcp ts str
        = (-1) * ((insertionPoint (typeNames ts) str : Int) + 1) ∧
      List.Pairwise (· < ·)
        ((typeNames ts).take (insertionPoint (typeNames ts) str) ++
          str :: (typeNames ts).drop (insertionPoint (typeNames ts) str))) ∧
    (ts = [] → binary_search_type_list_katcp ts str = -1) := by
  refine ⟨?_, ?_, ?_⟩
  · intro hmem
    obtain ⟨n, hn⟩ := List.mem_iff_get.mp hmem
    have hgd : (typeNames ts).getD (n : Nat) "" = str := by
      rw [List.getD_eq_getElem _ _ n.isLt, ← List.get_eq_getElem, hn]
    have hip : insertionPoint (typeNames ts) str = (n : Nat) :=
      insertionPoint_eq_of_getD hs n.isLt hgd
    rw [binary_search_eq ts str hs, if_pos hmem, hip]
    exact ⟨rfl, hgd⟩
  · intro hmem
    rw [binary_search_eq ts str hs, if_neg hmem]
    exact ⟨rfl, pairwise_insert_at_point str (typeNames ts) hs hmem⟩
  · intro h
    subst h
    rfl

/-- An empty callback set (all five NULL). -/
def cb0 : Callbacks := ⟨none, none, none, none, none⟩

/-- A sample descriptor named `q` with an empty store. -/
def tQ : KatcpType := ⟨"q", some [], none, none, none, none, none⟩

/-- A sample singleton registry holding `tQ`. -/
def sQ : Shared := ⟨[some tQ]⟩

theorem binary_search_contract_witness :
    binary_search_type_list_katcp sQ.s_type "q"
      = (insertionPoint (typeNames sQ.s_type) "q" : Int) ∧
    (typeNames sQ.s_type).getD (insertionPoint (typeNames sQ.s_type) "q") "" = "q" :=
  (binary_search_contract sQ.s_type "q" (by simp [sQ, tQ, typeNames])).1 (by decide)

/-! ## Registration -/

/-- The descriptor built by `register_at_id_type_katcp`. -/
def freshType (tname : String) (cb : Callbacks) : KatcpType :=
  ⟨tname, some create_avltree, cb.fn_print, cb.fn_free, cb.fn_copy, cb.fn_compare, cb.fn_parse⟩

/-- `register_at_id_type_katcp` either fails on allocation leaving the state
untouched, or inserts the fresh descriptor at the (clamped) requested index. -/
theorem register_at_cases (o : AllocOracle) (s : Shared) (tid : Nat) (tname : String)
    (cb : Callbacks) :
    (register_at_id_type_katcp o s tid tname cb = (s, -1)) ∨
    (register_at_id_type_katcp o s tid tname cb
      = (⟨s.s_type.take (min tid s.s_type.length) ++
            some (freshType tname cb) :: s.s_type.drop (min tid s.s_type.length)⟩,
         ((min tid s.s_type.length : Nat) : Int))) := by
  rcases o with ⟨(_ | _), (_ | _), (_ | _), (_ | _)⟩ <;>
    first
      | exact Or.inl rfl
      | exact Or.inr rfl

/-- With every allocation succeeding, `register_at_id_type_katcp` inserts the
fresh descriptor at the (clamped) requested index. -/
theorem register_at_allOk (s : Shared) (tid : Nat) (tname : String) (cb : Callbacks) :
    register_at_id_type_katcp allOk s tid tname cb
      = (⟨s.s_type.take (min tid s.s_type.length) ++
            some (freshType tname cb) :: s.s_type.drop (min tid s.s_type.length)⟩,
         ((min tid s.s_type.length : Nat) : Int)) := rfl

/-- Names of a registry with a descriptor inserted. -/
theorem typeNames_insert (ts : List (Option KatcpType)) (i : Nat) (t : KatcpType) :
    typeNames (ts.take i ++ some t :: ts.drop i)
      = (typeNames ts).take i ++ t.t_name :: (typeNames ts).drop i := by
  simp [typeNames, List.map_take, List.map_drop]

/-- The insertion point never exceeds the list length. -/
theorem insertionPoint_le_length (ns : List String) (str : String) :
    insertionPoint ns str ≤ ns.length :=
  List.countP_le_length _

/-- One step of `register_name_type_katcp` keeps the registry names sorted. -/
theorem register_name_preserves_sorted (o : AllocOracle) (s : Shared) (name : String)
    (cb : Callbacks) (hs : List.Pairwise (· < ·) (typeNames s.s_type)) :
    List.Pairwise (· < ·) (typeNames (register_name_type_katcp o s name cb).1.s_type) := by
  unfold register_name_type_katcp
  by_cases hpos : 0 ≤ binary_search_type_list_katcp s.s_type name
  · rw [if_pos hpos]
    exact hs
  · rw [if_neg hpos]
    have hb := binary_search_eq s.s_type name hs
    have hmem : name ∉ typeNames s.s_type := by
      intro hmem
      rw [if_pos hmem] at hb
      exact hpos (hb ▸ Int.natCast_nonneg _)
    rw [if_neg hmem] at hb
    have hiple : insertionPoint (typeNames s.s_type) name ≤ s.s_type.length := by
      have := insertionPoint_le_length (typeNames s.s_type) name
      simpa [typeNames] using this
    have harg : ((binary_search_type_list_katcp s.s_type name + 1) * (-1)).toNat
        = insertionPoint (typeNames s.s_type) name := by
      rw [hb]
      omega
    rw [harg]
    rcases register_at_cases o s (insertionPoint (typeNames s.s_type) name) name cb with
      h | h
    · rw [h]
      exact hs
    · rw [h]
      have hmin : min (insertionPoint (typeNames s.s_type) name) s.s_type.length
          = insertionPoint (typeNames s.s_type) name := Nat.min_eq_left hiple
      simp only [hmin]
      rw [typeNames_insert]
      exact pairwise_insert_at_point name (typeNames s.s_type) hs hmem

/-- A sequence of registrations starting from the empty registry. -/
def run_registrations (l : List (String × Callbacks)) : Shared :=
  l.foldl (fun s p => (register_name_type_katcp allOk s p.1 p.2).1) ⟨[]⟩

/-- C2: starting from an empty registry, after any sequence of
`register_name_type_katcp` calls (so in particular after every prefix of a
sequence of calls with pairwise distinct names) the registry's descriptor
names are sorted strictly ascending under byte-wise comparison, and no two
descriptors share a name. -/
theorem register_sequences_sorted (l : List (String × Callbacks)) :
    List.Pairwise (· < ·) (typeNames (run_registrations l).s_type) ∧
    (typeNames (run_registrations l).s_type).Nodup := by
  have key : ∀ (l : List (String × Callbacks)) (s : Shared),
      List.Pairwise (· < ·) (typeNames s.s_type) →
      List.Pairwise (· < ·)
        (typeNames (l.foldl (fun s p => (register_name_type_katcp allOk s p.1 p.2).1) s).s_type) := by
    intro l
    induction l with
    | nil => intro s hs; exact hs
    | cons p tl ih =>
      intro s hs
      exact ih _ (register_name_preserves_sorted allOk s p.1 p.2 hs)
  have h1 := key l ⟨[]⟩ (by simp [typeNames])
  exact ⟨h1, h1.imp ne_of_lt⟩

/-! ## C6: duplicate registration -/

/-- C6: registering a name already present in a sorted registry fails with
`-1` and leaves the registry unchanged — same count, same descriptors, same
order. -/
theorem duplicate_register_rejected (o : AllocOracle) (s : Shared) (x : String)
    (cb : Callbacks) (hs : List.Pairwise (· < ·) (typeNames s.s_type))
    (hmem : x ∈ typeNames s.s_type) :
    register_name_type_katcp o s x cb = (s, -1) := by
  unfold register_name_type_katcp
  have hb := binary_search_eq s.s_type x hs
  rw [if_pos hmem] at hb
  rw [hb, if_pos (Int.natCast_nonneg _)]

theorem duplicate_register_rejected_witness :
    register_name_type_katcp allOk sQ "q" cb0 = (sQ, -1) :=
  duplicate_register_rejected allOk sQ "q" cb0 (by simp [sQ, tQ, typeNames]) (by decide)

/-! ## Locating a registered descriptor -/

/-- The name list reads through a slot holding a descriptor. -/
theorem typeNames_getD {ts : List (Option KatcpType)} {pos : Nat} (hpos : pos < ts.length)
    {t : KatcpType} (hget : ts.getD pos none = some t) :
    (typeNames ts).getD pos "" = t.t_name := by
  have hlen : pos < (typeNames ts).length := by simpa [typeNames] using hpos
  rw [List.getD_eq_getElem _ _ hlen]
  rw [List.getD_eq_getElem _ _ hpos] at hget
  simp [typeNames, hget]

/-- A held name is a member of the name list. -/
theorem typeNames_mem {ts : List (Option KatcpType)} {pos : Nat} (hpos : pos < ts.length)
    {t : KatcpType} (hget : ts.getD pos none = some t) :
    t.t_name ∈ typeNames ts := by
  have hlen : pos < (typeNames ts).length := by simpa [typeNames] using hpos
  have := typeNames_getD hpos hget
  rw [List.getD_eq_getElem _ _ hlen] at this
  exact this ▸ List.getElem_mem hlen

/-- On a sorted registry, binary search finds a held descriptor at its slot. -/
theorem binary_search_finds {ts : List (Option KatcpType)}
    (hs : List.Pairwise (· < ·) (typeNames ts)) {pos : Nat} (hpos : pos < ts.length)
    {t : KatcpType} (hget : ts.getD pos none = some t) :
    binary_search_type_list_katcp ts t.t_name = (pos : Int) := by
  have hlen : pos < (typeNames ts).length := by simpa [typeNames] using hpos
  have hip : insertionPoint (typeNames ts) t.t_name = pos :=
    insertionPoint_eq_of_getD hs hlen (typeNames_getD hpos hget)
  rw [binary_search_eq ts t.t_name hs, if_pos (typeNames_mem hpos hget), hip]

/-- Reading the freshly inserted slot. -/
theorem getD_insert_self {α : Type} (ts : List α) (i : Nat) (x d : α) (hi : i ≤ ts.length) :
    (ts.take i ++ x :: ts.drop i).getD i d = x := by
  have h : (ts.take i).length = i := by simp [List.length_take, Nat.min_eq_left hi]
  have := getD_append_cons (ts.take i) (ts.drop i) x d
  rwa [h] at this

/-- Overwriting the freshly inserted slot. -/
theorem set_insert_self {α : Type} (ts : List α) (i : Nat) (x b : α) (hi : i ≤ ts.length) :
    (ts.take i ++ x :: ts.drop i).set i b = ts.take i ++ b :: ts.drop i := by
  have h : (ts.take i).length = i := by simp [List.length_take, Nat.min_eq_left hi]
  have := set_append_cons (ts.take i) (ts.drop i) x b
  rwa [h] at this

/-- A supplied callback set differs from a descriptor's exactly when one of
the five identity comparisons of the store-time check fails. -/
theorem callbacks_ne_iff (t : KatcpType) (cb : Callbacks) :
    cb ≠ callbacksOf t ↔
      (t.t_print ≠ cb.fn_print ∨ t.t_free ≠ cb.fn_free ∨ t.t_copy ≠ cb.fn_copy ∨
        t.t_compare ≠ cb.fn_compare ∨ t.t_parse ≠ cb.fn_parse) := by
  cases cb
  simp only [callbacksOf, ne_eq, Callbacks.mk.injEq, not_and]
  constructor
  · intro h
    by_contra hcon
    push_neg at hcon
    exact h hcon.1.symm hcon.2.1.symm hcon.2.2.1.symm hcon.2.2.2.1.symm hcon.2.2.2.2.symm
  · intro h h1 h2 h3 h4 h5
    rcases h with h | h | h | h | h <;> simp_all

/-! ## C3: callback mismatch on store -/

/-- C3: storing into a registered type of a sorted registry with a callback
set that differs (by identity) from the descriptor's in at least one of the
five entries fails with `-1` and leaves the whole registry — in particular
that type's store — unchanged. -/
theorem store_callback_mismatch (o : AllocOracle) (nodeOk : Bool) (s : Shared)
    (hs : List.Pairwise (· < ·) (typeNames s.s_type)) (pos : Nat)
    (hpos : pos < s.s_type.length) (t : KatcpType)
    (hget : s.s_type.getD pos none = some t) (cb : Callbacks)
    (hne : cb ≠ callbacksOf t) (d_name : String) (d_data : Nat) :
    store_data_type_katcp o nodeOk s t.t_name d_name d_data cb = (s, [], -1) := by
  have hfind := binary_search_finds hs hpos hget
  simp only [store_data_type_katcp]
  rw [hfind]
  rw [if_neg (by omega : ¬ ((pos : Nat) : Int) < 0)]
  simp only [Int.toNat_natCast]
  rw [hget]
  dsimp only
  rw [if_pos ((callbacks_ne_iff t cb).mp hne)]
  exact if_neg (by omega)

theorem store_callback_mismatch_witness :
    store_data_type_katcp allOk true sQ "q" "k" 5 ⟨some 1, none, none, none, none⟩
      = (sQ, [], -1) :=
  store_callback_mismatch allOk true sQ (by simp [sQ, tQ, typeNames]) 0
    (by decide) tQ (by decide) ⟨some 1, none, none, none, none⟩ (by decide) "k" 5

/-! ## C4: store/lookup round trip through auto-registration -/

/-- Length of a registry with a descriptor inserted. -/
theorem length_insert_self {α : Type} (ts : List α) (i : Nat) (x : α) (hi : i ≤ ts.length) :
    (ts.take i ++ x :: ts.drop i).length = ts.length + 1 := by
  simp only [List.length_append, List.length_cons, List.length_take, List.length_drop]
  omega

/-- Evaluation of `store_data_type_katcp` on a type name absent from a sorted
registry: the type is auto-registered at its insertion point and the pair is
the only entry of its fresh store. -/
theorem store_fresh_eq (s : Shared) (hs : List.Pairwise (· < ·) (typeNames s.s_type))
    (t_name k : String) (v : Nat) (cb : Callbacks)
    (habs : t_name ∉ typeNames s.s_type) :
    store_data_type_katcp allOk true s t_name k v cb
      = (⟨s.s_type.take (insertionPoint (typeNames s.s_type) t_name) ++
            some ⟨t_name, some [(k, v)], cb.fn_print, cb.fn_free, cb.fn_copy,
              cb.fn_compare, cb.fn_parse⟩ ::
            s.s_type.drop (insertionPoint (typeNames s.s_type) t_name)⟩, [], 0) := by
  have hb := binary_search_eq s.s_type t_name hs
  rw [if_neg habs] at hb
  have hiple : insertionPoint (typeNames s.s_type) t_name ≤ s.s_type.length := by
    have := insertionPoint_le_length (typeNames s.s_type) t_name
    simpa [typeNames] using this
  simp only [store_data_type_katcp]
  rw [hb]
  rw [if_pos
    (by omega : (-1) * ((insertionPoint (typeNames s.s_type) t_name : Int) + 1) < 0)]
  have harg : (((-1) * ((insertionPoint (typeNames s.s_type) t_name : Int) + 1) + 1)
      * (-1)).toNat = insertionPoint (typeNames s.s_type) t_name := by omega
  rw [harg, register_at_allOk, Nat.min_eq_left hiple]
  dsimp only
  rw [if_neg (by omega : ¬ ((insertionPoint (typeNames s.s_type) t_name : Nat) : Int) < 0)]
  simp only [Int.toNat_natCast]
  rw [getD_insert_self _ _ _ _ hiple]
  dsimp only [freshType]
  rw [if_neg (by simp : ¬ ((⟨t_name, some create_avltree, cb.fn_print, cb.fn_free,
    cb.fn_copy, cb.fn_compare, cb.fn_parse⟩ : KatcpType).t_print ≠ cb.fn_print ∨
    (⟨t_name, some create_avltree, cb.fn_print, cb.fn_free, cb.fn_copy, cb.fn_compare,
      cb.fn_parse⟩ : KatcpType).t_free ≠ cb.fn_free ∨
    (⟨t_name, some create_avltree, cb.fn_print, cb.fn_free, cb.fn_copy, cb.fn_compare,
      cb.fn_parse⟩ : KatcpType).t_copy ≠ cb.fn_copy ∨
    (⟨t_name, some create_avltree, cb.fn_print, cb.fn_free, cb.fn_copy, cb.fn_compare,
      cb.fn_parse⟩ : KatcpType).t_compare ≠ cb.fn_compare ∨
    (⟨t_name, some create_avltree, cb.fn_print, cb.fn_free, cb.fn_copy, cb.fn_compare,
      cb.fn_parse⟩ : KatcpType).t_parse ≠ cb.fn_parse))]
  rw [if_neg (by simp : ¬ ((⟨t_name, some create_avltree, cb.fn_print, cb.fn_free,
    cb.fn_copy, cb.fn_compare, cb.fn_parse⟩ : KatcpType).t_tree = none))]
  dsimp only
  have hadd : add_node_avltree k v create_avltree = some [(k, v)] := rfl
  rw [hadd]
  dsimp only
  rw [if_neg (by decide : ¬ ((!true) = true))]
  rw [List.set_set, set_insert_self _ _ _ _ hiple]

/-- Looking up a key stored in the tree of a registered type of a sorted
registry. -/
theorem get_key_data_found (s : Shared)
    (hs : List.Pairwise (· < ·) (typeNames s.s_type)) {pos : Nat}
    (hpos : pos < s.s_type.length) {t : KatcpType}
    (hget : s.s_type.getD pos none = some t) {tr : AvlTree}
    (htr : t.t_tree = some tr) {k : String} {v : Nat}
    (hfind : tr.find? (fun e => e.1 == k) = some (k, v)) :
    get_key_data_type_katcp s t.t_name k = some v := by
  unfold get_key_data_type_katcp find_name_type_katcp find_name_id_type_katcp
  rw [binary_search_finds hs hpos hget]
  rw [if_neg (by omega : ¬ ((pos : Nat) : Int) < 0)]
  simp only [Int.toNat_natCast]
  rw [hget]
  dsimp only
  unfold find_name_node_avltree
  rw [htr]
  dsimp only
  rw [hfind]
  rfl

/-- C4: for a type name absent from a sorted registry, a successful
`store_data_type_katcp` call — which auto-registers the type — followed by
`get_key_data_type_katcp` on the same type name and key returns exactly the
stored value. -/
theorem store_lookup_roundtrip (s : Shared)
    (hs : List.Pairwise (· < ·) (typeNames s.s_type)) (t_name k : String) (v : Nat)
    (cb : Callbacks) (habs : t_name ∉ typeNames s.s_type) :
    (store_data_type_katcp allOk true s t_name k v cb).2.2 = 0 ∧
    get_key_data_type_katcp (store_data_type_katcp allOk true s t_name k v cb).1 t_name k
      = some v := by
  rw [store_fresh_eq s hs t_name k v cb habs]
  refine ⟨rfl, ?_⟩
  have hiple : insertionPoint (typeNames s.s_type) t_name ≤ s.s_type.length := by
    have := insertionPoint_le_length (typeNames s.s_type) t_name
    simpa [typeNames] using this
  have hs3 : List.Pairwise (· < ·) (typeNames
      (s.s_type.take (insertionPoint (typeNames s.s_type) t_name) ++
        some ⟨t_name, some [(k, v)], cb.fn_print, cb.fn_free, cb.fn_copy,
          cb.fn_compare, cb.fn_parse⟩ ::
        s.s_type.drop (insertionPoint (typeNames s.s_type) t_name))) := by
    rw [typeNames_insert]
    exact pairwise_insert_at_point t_name (typeNames s.s_type) hs habs
  have hpos3 : insertionPoint (typeNames s.s_type) t_name <
      (s.s_type.take (insertionPoint (typeNames s.s_type) t_name) ++
        some (⟨t_name, some [(k, v)], cb.fn_print, cb.fn_free, cb.fn_copy,
          cb.fn_compare, cb.fn_parse⟩ : KatcpType) ::
        s.s_type.drop (insertionPoint (typeNames s.s_type) t_name)).length := by
    rw [length_insert_self _ _ _ hiple]
    omega
  have hget3 := getD_insert_self s.s_type (insertionPoint (typeNames s.s_type) t_name)
    (some (⟨t_name, some [(k, v)], cb.fn_print, cb.fn_free, cb.fn_copy,
      cb.fn_compare, cb.fn_parse⟩ : KatcpType)) none hiple
  have hfind : ([(k, v)] : AvlTree).find? (fun e => e.1 == k) = some (k, v) := by
    simp [List.find?]
  exact get_key_data_found _ hs3 hpos3 hget3 rfl hfind

theorem store_lookup_roundtrip_witness :
    (store_data_type_katcp allOk true ⟨[]⟩ "t" "k" 7 cb0).2.2 = 0 ∧
    get_key_data_type_katcp (store_data_type_katcp allOk true ⟨[]⟩ "t" "k" 7 cb0).1 "t" "k"
      = some 7 :=
  store_lookup_roundtrip ⟨[]⟩ (by simp [typeNames]) "t" "k" 7 cb0 (by simp [typeNames])

/-! ## C5: deregistration frees every stored entry -/

/-- Evaluation of `deregister_type_katcp` (with the shrinking reallocation
succeeding) on a descriptor held by a sorted registry: the slot is removed and
the destroy log of that descriptor is reported. -/
theorem deregister_found_eq (s : Shared)
    (hs : List.Pairwise (· < ·) (typeNames s.s_type)) (pos : Nat)
    (hpos : pos < s.s_type.length) (t : KatcpType)
    (hget : s.s_type.getD pos none = some t) :
    deregister_type_katcp true s t.t_name
      = (⟨s.s_type.take pos ++ s.s_type.drop (pos + 1)⟩, destroy_type_katcp t, 0) := by
  simp only [deregister_type_katcp]
  rw [binary_search_finds hs hpos hget]
  rw [if_neg (by omega : ¬ ((pos : Nat) : Int) < 0)]
  simp only [Int.toNat_natCast]
  rw [hget]
  dsimp only
  rw [if_neg (by decide : ¬ ((!true) = true))]
  rw [take_set_of_le none s.s_type pos pos (le_refl pos)]
  rw [drop_set_of_lt none s.s_type (pos + 1) pos (Nat.lt_succ_self pos)]
  have hA : (s.s_type.take pos ++ s.s_type.drop (pos + 1)).length = s.s_type.length - 1 := by
    simp only [List.length_append, List.length_take, List.length_drop]
    omega
  rw [← hA, List.take_left]

/-- C5: deregistering a type of a sorted registry whose descriptor holds a
store of N entries and a non-NULL free callback succeeds, invokes that free
callback exactly N times — once per stored entry, in store order — while the
descriptor is destroyed, and a subsequent binary search for the name reports
not-found (a negative result). -/
theorem deregister_frees_all_entries (s : Shared)
    (hs : List.Pairwise (· < ·) (typeNames s.s_type)) (pos : Nat)
    (hpos : pos < s.s_type.length) (t : KatcpType)
    (hget : s.s_type.getD pos none = some t) (tr : AvlTree) (htr : t.t_tree = some tr)
    (f : Nat) (hf : t.t_free = some f) :
    (deregister_type_katcp true s t.t_name).2.2 = 0 ∧
    (deregister_type_katcp true s t.t_name).2.1 = tr.map (fun e => (f, e.2)) ∧
    (deregister_type_katcp true s t.t_name).2.1.length = tr.length ∧
    binary_search_type_list_katcp (deregister_type_katcp true s t.t_name).1.s_type t.t_name
      < 0 := by
  rw [deregister_found_eq s hs pos hpos t hget]
  have hdestroy : destroy_type_katcp t = tr.map (fun e => (f, e.2)) := by
    unfold destroy_type_katcp
    rw [htr]
    unfold destroy_avltree
    rw [hf]
  have hlen' : pos < (typeNames s.s_type).length := by simpa [typeNames] using hpos
  have hnames : typeNames (s.s_type.take pos ++ s.s_type.drop (pos + 1))
      = (typeNames s.s_type).take pos ++ (typeNames s.s_type).drop (pos + 1) := by
    simp [typeNames, List.map_take, List.map_drop]
  have hsub : List.Sublist
      ((typeNames s.s_type).take pos ++ (typeNames s.s_type).drop (pos + 1))
      (typeNames s.s_type) := by
    have h1 : List.Sublist ((typeNames s.s_type).drop (pos + 1))
        ((typeNames s.s_type).drop pos) := by
      rw [show (typeNames s.s_type).drop (pos + 1) = ((typeNames s.s_type).drop pos).drop 1
        from by rw [List.drop_drop, Nat.add_comm]]
      exact List.drop_sublist 1 _
    have h2 := h1.append_left ((typeNames s.s_type).take pos)
    rwa [List.take_append_drop] at h2
  have hdrop : (typeNames s.s_type).drop pos
      = t.t_name :: (typeNames s.s_type).drop (pos + 1) := by
    rw [List.drop_eq_getElem_cons hlen']
    congr 1
    rw [← List.getD_eq_getElem _ "" hlen']
    exact typeNames_getD hpos hget
  have hsplit : typeNames s.s_type
      = (typeNames s.s_type).take pos ++ t.t_name :: (typeNames s.s_type).drop (pos + 1) := by
    conv_lhs => rw [← List.take_append_drop pos (typeNames s.s_type)]
    rw [hdrop]
  have hnodup : (typeNames s.s_type).Nodup := hs.imp ne_of_lt
  have hnotmem : t.t_name ∉
      (typeNames s.s_type).take pos ++ (typeNames s.s_type).drop (pos + 1) := by
    rw [hsplit] at hnodup
    rw [List.nodup_append] at hnodup
    intro hmem
    rcases List.mem_append.mp hmem with h | h
    · exact hnodup.2.2 h (List.mem_cons_self _ _)
    · exact (List.nodup_cons.mp hnodup.2.1).1 h
  refine ⟨rfl, hdestroy, by rw [hdestroy]; simp, ?_⟩
  have hsorted' : List.Pairwise (· < ·)
      (typeNames (s.s_type.take pos ++ s.s_type.drop (pos + 1))) := by
    rw [hnames]
    exact hs.sublist hsub
  have hnm : t.t_name ∉ typeNames (s.s_type.take pos ++ s.s_type.drop (pos + 1)) := by
    rw [hnames]
    exact hnotmem
  rw [binary_search_eq _ _ hsorted', if_neg hnm]
  omega

/-- A sample descriptor named `r` whose store holds two entries and whose free
callback has identity 3. -/
def tR : KatcpType := ⟨"r", some [("a", 5), ("b", 6)], none, some 3, none, none, none⟩

/-- A sample singleton registry holding `tR`. -/
def sR : Shared := ⟨[some tR]⟩

theorem deregister_frees_all_entries_witness :
    (deregister_type_katcp true sR "r").2.2 = 0 ∧
    (deregister_type_katcp true sR "r").2.1
      = ([("a", 5), ("b", 6)] : AvlTree).map (fun e => (3, e.2)) ∧
    (deregister_type_katcp true sR "r").2.1.length = ([("a", 5), ("b", 6)] : AvlTree).length ∧
    binary_search_type_list_katcp (deregister_type_katcp true sR "r").1.s_type "r" < 0 :=
  deregister_frees_all_entries sR (by simp [sR, tR, typeNames]) 0 (by decide) tR
    (by decide) [("a", 5), ("b", 6)] rfl 3 rfl

/-! ## C7: allocation failure during deregistration -/

/-- A sample descriptor named `alpha` holding one stored entry and a free
callback of identity 3. -/
def tA : KatcpType := ⟨"alpha", some [("k", 7)], none, some 3, none, none, none⟩

/-- A sample descriptor named `beta` with an empty store. -/
def tB : KatcpType := ⟨"beta", some [], none, none, none, none, none⟩

/-- C7: evaluating `deregister_type_katcp` on the registry `[alpha, beta]`
with the shrinking reallocation failing: the call reports the allocation
failure (`-1`), but it has already destroyed `alpha`'s descriptor and shifted
the sequence, leaving the registry as `[beta, beta]` — a stale duplicate of
the tail slot with the count not decremented — instead of its prior consistent
state. -/
theorem deregister_shrink_failure_corrupts :
    (deregister_type_katcp false ⟨[some tA, some tB]⟩ "alpha").2.2 = -1 ∧
    (deregister_type_katcp false ⟨[some tA, some tB]⟩ "alpha").1 = ⟨[some tB, some tB]⟩ ∧
    (deregister_type_katcp false ⟨[some tA, some tB]⟩ "alpha").1 ≠ ⟨[some tA, some tB]⟩ := by
  decide

/-! ## C8: registration with an empty name -/

/-- C8 counterexample: `register_at_id_type_katcp` called with the empty name
(and every allocation succeeding) does not fail — it returns index 0 and adds
a descriptor to the registry. -/
theorem register_empty_name_accepted :
    (register_at_id_type_katcp allOk ⟨[]⟩ 0 "" cb0).2 = 0 ∧
    (register_at_id_type_katcp allOk ⟨[]⟩ 0 "" cb0).1.s_type.length = 1 := by
  decide

/-- C8 (amended): `register_at_id_type_katcp` performs no name validation:
with every allocation succeeding, a call with the empty name succeeds like any
other, returning the clamped insertion index and adding a descriptor whose
name is the empty string. -/
theorem register_empty_name_no_validation (s : Shared) (tid : Nat) (cb : Callbacks) :
    (register_at_id_type_katcp allOk s tid "" cb).2
      = ((min tid s.s_type.length : Nat) : Int) ∧
    (register_at_id_type_katcp allOk s tid "" cb).1.s_type.length
      = s.s_type.length + 1 ∧
    (register_at_id_type_katcp allOk s tid "" cb).1.s_type.getD
        (min tid s.s_type.length) none = some (freshType "" cb) := by
  rw [register_at_allOk]
  exact ⟨rfl, length_insert_self _ _ _ (Nat.min_le_right _ _),
    getD_insert_self _ _ _ _ (Nat.min_le_right _ _)⟩

/-! ## C9: eager store creation at registration -/

/-- C9 counterexample: immediately after `register_at_id_type_katcp` creates a
descriptor — before any store call on the type — the descriptor's store handle
is already present (a fresh empty ordered map), not absent. -/
theorem registered_type_store_present :
    ((register_at_id_type_katcp allOk ⟨[]⟩ 0 "a" cb0).1.s_type.getD 0 none).bind
        KatcpType.t_tree = some create_avltree ∧
    ((register_at_id_type_katcp allOk ⟨[]⟩ 0 "a" cb0).1.s_type.getD 0 none).bind
        KatcpType.t_tree ≠ none := by
  decide

/-- C9 (amended): registration creates the store eagerly — after a successful
`register_at_id_type_katcp` the new descriptor's store handle already holds a
fresh empty ordered map, so `store_data_type_katcp`'s lazy-creation branch
only covers the defensive case of a descriptor whose handle is absent. -/
theorem register_creates_store_eagerly (s : Shared) (tid : Nat) (tname : String)
    (cb : Callbacks) :
    ((register_at_id_type_katcp allOk s tid tname cb).1.s_type.getD
        (min tid s.s_type.length) none).bind KatcpType.t_tree = some create_avltree := by
  rw [register_at_allOk, getD_insert_self _ _ _ _ (Nat.min_le_right _ _)]
  rfl

/-! ## C10: duplicate-key store consumes the value -/

/-- On a key-sorted tree, inserting an already present key fails. -/
theorem add_node_dup (k : String) (v : Nat) :
    ∀ tr : AvlTree, List.Pairwise (· < ·) (tr.map Prod.fst) →
      k ∈ tr.map Prod.fst → add_node_avltree k v tr = none := by
  intro tr
  induction tr with
  | nil =>
    intro _ h
    simp at h
  | cons e rest ih =>
    intro hs hk
    rw [List.map_cons, List.pairwise_cons] at hs
    unfold add_node_avltree
    by_cases he : k = e.1
    · rw [if_pos he]
    · rw [if_neg he]
      have hkrest : k ∈ rest.map Prod.fst := by
        rw [List.map_cons] at hk
        rcases List.mem_cons.mp hk with h | h
        · exact absurd h he
        · exact h
      have hke : e.1 < k := hs.1 k hkrest
      rw [if_neg (lt_asymm hke), ih hs.2 hkrest]
      rfl

/-- C10: a store call on a registered type of a sorted registry whose
(key-sorted) store already contains the key — the supplied callbacks matching
the descriptor's — fails with `-1`, but the supplied value is released through
the supplied free callback before returning: ownership of the value is
consumed by the registry even on the duplicate-key failure path, and the
registry (in particular the type's store) is unchanged. -/
theorem store_duplicate_key_frees_value (s : Shared)
    (hs : List.Pairwise (· < ·) (typeNames s.s_type)) (pos : Nat)
    (hpos : pos < s.s_type.length) (t : KatcpType)
    (hget : s.s_type.getD pos none = some t) (cb : Callbacks)
    (hcb : cb = callbacksOf t) (tr : AvlTree) (htr : t.t_tree = some tr)
    (htrs : List.Pairwise (· < ·) (tr.map Prod.fst)) (k : String)
    (hk : k ∈ tr.map Prod.fst) (f : Nat) (hf : cb.fn_free = some f) (v : Nat) :
    store_data_type_katcp allOk true s t.t_name k v cb = (s, [(f, v)], -1) := by
  have hfind := binary_search_finds hs hpos hget
  simp only [store_data_type_katcp]
  rw [hfind]
  rw [if_neg (by omega : ¬ ((pos : Nat) : Int) < 0)]
  simp only [Int.toNat_natCast]
  rw [hget]
  dsimp only
  have hmatch : ¬ (t.t_print ≠ cb.fn_print ∨ t.t_free ≠ cb.fn_free ∨
      t.t_copy ≠ cb.fn_copy ∨ t.t_compare ≠ cb.fn_compare ∨ t.t_parse ≠ cb.fn_parse) := by
    rw [hcb]
    simp [callbacksOf]
  rw [if_neg hmatch]
  have htree : ¬ (t.t_tree = none) := by
    rw [htr]
    simp
  rw [if_neg htree, htr]
  dsimp only
  rw [if_neg (by decide : ¬ ((!true) = true))]
  rw [add_node_dup k v tr htrs hk]
  dsimp only
  have hfree : free_node_avltree v cb.fn_free = [(f, v)] := by
    unfold free_node_avltree
    rw [hf]
  have hset : s.s_type.set pos (some t) = s.s_type := by
    conv_lhs => rw [← hget]
    exact set_self_of_getD none s.s_type pos hpos
  rw [hfree, hset]
  exact if_neg (by omega)

/-- A sample descriptor named `a` whose store holds the key `k` and whose free
callback has identity 3. -/
def tK : KatcpType := ⟨"a", some [("k", 7)], none, some 3, none, none, none⟩

/-- A sample singleton registry holding `tK`. -/
def sK : Shared := ⟨[some tK]⟩

theorem store_duplicate_key_frees_value_witness :
    store_data_type_katcp allOk true sK "a" "k" 9 ⟨none, some 3, none, none, none⟩
      = (sK, [(3, 9)], -1) :=
  store_duplicate_key_frees_value sK (by simp [sK, tK, typeNames]) 0 (by decide) tK
    (by decide) ⟨none, some 3, none, none, none⟩ rfl [("k", 7)] rfl (by simp) "k"
    (by decide) 3 rfl 9

end Katcp
